import Mathlib

/-!
Verification development for the mqttutil task engine
(`src/mqttutil/__main__.py`).

The embedding models dynamically-typed Python values (`PyVal`), the
recursive primitive-mode flattening and the JSON-mode publishing of
`Task._publish`, the topic-joining property `Task.topic`, the
exception containment of `Task.run`, and the scheduling-interval
parsing of `Task.__init__`.
-/

namespace Mqttutil

/-- Python dict keys occurring in this program: strings (from config /
user-supplied dicts) and ints (from `dict(enumerate(...))` and the
`{0: result}` wrap). -/
inductive Key where
  | kint (n : Int)
  | kstr (s : String)
deriving DecidableEq, Repr

/-- Dynamically-typed result values flowing through `Task._publish`.
`vfloat` carries the float's decimal rendering opaquely (no float
arithmetic is performed by the program). `vbool` is separate from
`vint` because Python `bool` is a distinct runtime type (a subclass of
`int`), which the `type(result) in [int, float, str]` test
distinguishes. `vnamedtuple` is a tuple with `_asdict`/`_fields`;
`vother` is any value of an unsupported type, carrying the type's name
(used in warnings) and its `str()` rendering (used by
`json.dumps(..., default=str)`). -/
inductive PyVal where
  | vnone
  | vbool (b : Bool)
  | vint (n : Int)
  | vfloat (f : String)
  | vstr (s : String)
  | vdict (entries : List (Key × PyVal))
  | vlist (elems : List PyVal)
  | vtuple (elems : List PyVal)
  | vnamedtuple (fields : List (String × PyVal))
  | vother (ty : String) (str : String)

/-- Scalar payload handed to `mqtt_c.publish`. -/
inductive Payload where
  | pint (n : Int)
  | pfloat (f : String)
  | pstr (s : String)
deriving DecidableEq, Repr

/-- Observable actions of `Task._publish` in primitive mode: a broker
publish `mqtt_c.publish(topic, payload, qos)` or a
`logger.warning("type %s is not supported. (%s)", ...)` identifying an
unsupported type and the topic. -/
inductive Event where
  | publish (topic : String) (payload : Payload) (qos : Int)
  | warn (ty : String) (topic : String)
deriving DecidableEq, Repr

/-- Python `str(k)` for a dict key, as used by the f-string
`f"{pub_topic}/{k}"`. -/
def keyStr : Key → String
  | .kint n => toString n
  | .kstr s => s

/-- Python `dict(enumerate(xs))` starting at index `i`: int keys
`i, i+1, ...` in order. -/
def enumEntriesFrom (i : Nat) : List PyVal → List (Key × PyVal)
  | [] => []
  | v :: rest => (Key.kint (Int.ofNat i), v) :: enumEntriesFrom (i + 1) rest

/-- Python `result._asdict()` for a namedtuple: its field→value
mapping in field order, with string keys. -/
def fieldEntries : List (String × PyVal) → List (Key × PyVal)
  | [] => []
  | (f, v) :: rest => (Key.kstr f, v) :: fieldEntries rest

mutual

/-- Size measure used to justify termination of the flattening
recursion (lists/tuples convert to a dict of the same elements, which
is strictly smaller by this measure). -/
def PyVal.size : PyVal → Nat
  | .vnone => 1
  | .vbool _ => 1
  | .vint _ => 1
  | .vfloat _ => 1
  | .vstr _ => 1
  | .vother _ _ => 1
  | .vdict es => 1 + sizeEntries es
  | .vlist xs => 2 + sizeList xs
  | .vtuple xs => 2 + sizeList xs
  | .vnamedtuple fs => 2 + sizeFields fs

def sizeEntries : List (Key × PyVal) → Nat
  | [] => 0
  | (_, v) :: rest => 1 + PyVal.size v + sizeEntries rest

def sizeList : List PyVal → Nat
  | [] => 0
  | v :: rest => 1 + PyVal.size v + sizeList rest

def sizeFields : List (String × PyVal) → Nat
  | [] => 0
  | (_, v) :: rest => 1 + PyVal.size v + sizeFields rest

end

theorem sizeEntries_enumEntriesFrom (xs : List PyVal) :
    ∀ i, sizeEntries (enumEntriesFrom i xs) = sizeList xs := by
  induction xs with
  | nil => intro i; rfl
  | cons v rest ih =>
      intro i
      simp [enumEntriesFrom, sizeEntries, sizeList, ih]

theorem sizeEntries_fieldEntries (fs : List (String × PyVal)) :
    sizeEntries (fieldEntries fs) = sizeFields fs := by
  induction fs with
  | nil => rfl
  | cons fv rest ih =>
      obtain ⟨f, v⟩ := fv
      simp [fieldEntries, sizeEntries, sizeFields, ih]

mutual

/-- Primitive-mode (non-JSON) branch of `Task._publish(pub_topic,
result)`, returning the ordered list of observable events.  Mirrors
the source:
- `None` → no publish;
- `type(result) in [int, float, str]` → publish the scalar (exact
  type test, so `bool` does not match);
- `dict` → for each key `k`, recurse on `f"{pub_topic}/{k}"`;
- `list` → recurse on `dict(enumerate(result))`;
- `tuple` with `_asdict` and `_fields` → recurse on
  `result._asdict()`; other tuples → recurse on
  `dict(enumerate(result))`;
- anything else → one warning naming the type and the topic. -/
def publishPrim (q : Int) (t : String) (v : PyVal) : List Event :=
  match v with
  | .vnone => []
  | .vbool _ => [Event.warn "bool" t]
  | .vint n => [Event.publish t (Payload.pint n) q]
  | .vfloat f => [Event.publish t (Payload.pfloat f) q]
  | .vstr s => [Event.publish t (Payload.pstr s) q]
  | .vdict es => publishEntries q t es
  | .vlist xs => publishPrim q t (PyVal.vdict (enumEntriesFrom 0 xs))
  | .vtuple xs => publishPrim q t (PyVal.vdict (enumEntriesFrom 0 xs))
  | .vnamedtuple fs => publishPrim q t (PyVal.vdict (fieldEntries fs))
  | .vother ty _ => [Event.warn ty t]
termination_by PyVal.size v
decreasing_by
  all_goals simp [PyVal.size, sizeEntries_enumEntriesFrom, sizeEntries_fieldEntries]

/-- The `for k, v in result.items(): self._publish(f"{pub_topic}/{k}", v)`
loop of the dict branch. -/
def publishEntries (q : Int) (t : String) (es : List (Key × PyVal)) : List Event :=
  match es with
  | [] => []
  | (k, v) :: rest => publishPrim q (t ++ "/" ++ keyStr k) v ++ publishEntries q t rest
termination_by sizeEntries es
decreasing_by
  all_goals simp [sizeEntries]
  all_goals omega

end

/-- Task state relevant to `_publish`/`run`/`topic`: the `json` flag,
the topic parts (`topic_pre` models the source field `topic_prefix`),
the `qos`, and the optional `jsonl_path` (set iff `outpath` was
given). -/
structure Task where
  json : Bool
  topic_pre : String
  topic_suffix : String
  qos : Int
  jsonl_path : Option String

/-- Python `s.endswith("/")`: the last character is a slash. -/
def endsWithSlash (s : String) : Bool :=
  s.data.getLast? == some '/'

/-- Topic joining of the `Task.topic` property: empty topic_prefix
yields the suffix alone (`if not self.topic_prefix`); a topic_prefix
already ending in "/" is concatenated directly; otherwise "/" is
inserted. -/
def topic_of (pre suf : String) : String :=
  if pre = "" then suf
  else if endsWithSlash pre then pre ++ suf
  else pre ++ "/" ++ suf

/-- The `Task.topic` property. -/
def Task.topic (t : Task) : String :=
  topic_of t.topic_pre t.topic_suffix

/-- JSON string escaping of one character (the escapes `json.dumps`
emits for the characters appearing in this development). -/
def jsonEscapeChar (c : Char) : String :=
  if c = '"' then "\\\""
  else if c = '\\' then "\\\\"
  else if c = '\n' then "\\n"
  else if c = '\t' then "\\t"
  else if c = '\r' then "\\r"
  else String.singleton c

/-- JSON string literal for `s` (quote and escape). -/
def jsonQuote (s : String) : String :=
  "\"" ++ String.join (s.toList.map jsonEscapeChar) ++ "\""

/-- JSON rendering of a dict key: `json.dumps` converts int keys to
their decimal string, and emits every key as a JSON string. -/
def jsonKeyStr : Key → String
  | .kint n => jsonQuote (toString n)
  | .kstr s => jsonQuote s

mutual

/-- Model of `json.dumps(v)`. `defaultStr = false` models the plain
call used for the publish payload: unsupported objects raise
`TypeError`, modelled as `none`. `defaultStr = true` models
`json.dumps(v, default=str)` used for the record line: unsupported
objects are replaced by their `str()` rendering. Dicts keep insertion
order; namedtuples serialize as JSON arrays (as tuples do); the
default separators `", "` and `": "` are used. -/
def dumps (defaultStr : Bool) (v : PyVal) : Option String :=
  match v with
  | .vnone => some "null"
  | .vbool b => some (if b then "true" else "false")
  | .vint n => some (toString n)
  | .vfloat f => some f
  | .vstr s => some (jsonQuote s)
  | .vdict es =>
      match dumpsEntries defaultStr es with
      | some items => some ("\x7b" ++ String.intercalate ", " items ++ "\x7d")
      | none => none
  | .vlist xs =>
      match dumpsElems defaultStr xs with
      | some items => some ("[" ++ String.intercalate ", " items ++ "]")
      | none => none
  | .vtuple xs =>
      match dumpsElems defaultStr xs with
      | some items => some ("[" ++ String.intercalate ", " items ++ "]")
      | none => none
  | .vnamedtuple fs =>
      match dumpsFields defaultStr fs with
      | some items => some ("[" ++ String.intercalate ", " items ++ "]")
      | none => none
  | .vother _ s => if defaultStr then some (jsonQuote s) else none

def dumpsEntries (defaultStr : Bool) (es : List (Key × PyVal)) : Option (List String) :=
  match es with
  | [] => some []
  | (k, v) :: rest =>
      match dumps defaultStr v, dumpsEntries defaultStr rest with
      | some sv, some srest => some ((jsonKeyStr k ++ ": " ++ sv) :: srest)
      | _, _ => none

def dumpsElems (defaultStr : Bool) (xs : List PyVal) : Option (List String) :=
  match xs with
  | [] => some []
  | v :: rest =>
      match dumps defaultStr v, dumpsElems defaultStr rest with
      | some sv, some srest => some (sv :: srest)
      | _, _ => none

def dumpsFields (defaultStr : Bool) (fs : List (String × PyVal)) : Option (List String) :=
  match fs with
  | [] => some []
  | (_, v) :: rest =>
      match dumps defaultStr v, dumpsFields defaultStr rest with
      | some sv, some srest => some (sv :: srest)
      | _, _ => none

end

/-- Normalization of a result to `result_dict` in the JSON branch of
`Task._publish`: a dict is used as-is; a namedtuple becomes
`result._asdict()`; a tuple or list becomes `dict(enumerate(result))`;
anything else is wrapped as `{0: result}`. -/
def resultDict : PyVal → List (Key × PyVal)
  | .vdict es => es
  | .vnamedtuple fs => fieldEntries fs
  | .vtuple xs => enumEntriesFrom 0 xs
  | .vlist xs => enumEntriesFrom 0 xs
  | v => [(Key.kint 0, v)]

/-- Whether a Python dict (as an entry list) carries the key. -/
def dictHasKey (k : Key) : List (Key × PyVal) → Bool
  | [] => false
  | (k0, _) :: rest => if k0 = k then true else dictHasKey k rest

/-- Replace the value stored under an existing key, keeping its
position. -/
def dictReplace (k : Key) (v : PyVal) : List (Key × PyVal) → List (Key × PyVal)
  | [] => []
  | (k0, v0) :: rest =>
      if k0 = k then (k, v) :: dictReplace k v rest
      else (k0, v0) :: dictReplace k v rest

/-- Python dict insertion `d[k] = v`: replacing the value in place if
the key is present (keeping its position), appending otherwise. -/
def dictInsert (es : List (Key × PyVal)) (k : Key) (v : PyVal) : List (Key × PyVal) :=
  if dictHasKey k es then dictReplace k v es else es ++ [(k, v)]

/-- Python dict indexing `d[k]` (first — and for a real dict, only —
occurrence of the key). -/
def dictLookup (k : Key) : List (Key × PyVal) → Option PyVal
  | [] => Option.none
  | (k0, v) :: rest => if k = k0 then Option.some v else dictLookup k rest

/-- Sequential insertion of all entries of `src` into `acc`
(Python `{**acc, **src}` spelled as repeated insertion). -/
def dictUpdate (acc : List (Key × PyVal)) : List (Key × PyVal) → List (Key × PyVal)
  | [] => acc
  | (k, v) :: rest => dictUpdate (dictInsert acc k v) rest

/-- The record-line mapping
`jsonl_dict = {"_time": datetime.datetime.now().astimezone(), **result_dict}`:
start from the injected timestamp entry and merge the result mapping
over it. -/
def jsonlDict (timeVal : PyVal) (rd : List (Key × PyVal)) : List (Key × PyVal) :=
  dictUpdate [(Key.kstr "_time", timeVal)] rd

/-- Whether an event is a broker publish (as opposed to a warning). -/
def isPublishEvent : Event → Bool
  | .publish _ _ _ => true
  | .warn _ _ => false

/-- Whether the event list contains any broker publish. -/
def hasPublish (es : List Event) : Bool :=
  es.any isPublishEvent

/-- Side effects of one `Task.run`: the ordered broker
publishes/warnings and the lines appended to the jsonl record file. -/
structure RunOut where
  events : List Event
  records : List String
deriving DecidableEq, Repr

/-- Body of `Task.run` before the try/except: `_eval` followed by
`_publish(self.topic, result)`. `evalRes` is the outcome of the
external expression evaluation; `pubOk` (resp. `recOk`) is false when
the broker publish (resp. the record-file append) raises; `now` is
the rendering of `datetime.datetime.now().astimezone()`. Returns the
side effects actually performed together with the raised exception,
if any. In the JSON branch the order of the source is kept:
serialization, then the single publish, then (only if `jsonl_path` is
set) the record append — so an exception at any step skips the later
steps but keeps the earlier effects. In the primitive branch a raising
broker keeps only the warnings preceding the first attempted
publish. -/
def runInner (t : Task) (evalRes : Except String PyVal) (pubOk recOk : Bool)
    (now : String) : RunOut × Option String :=
  match evalRes with
  | Except.error e => (⟨[], []⟩, some e)
  | Except.ok result =>
      if t.json then
        let rd := resultDict result
        match dumps false (PyVal.vdict rd) with
        | Option.none => (⟨[], []⟩, some "TypeError: object is not JSON serializable")
        | Option.some result_json =>
            if pubOk then
              let done : List Event :=
                [Event.publish t.topic (Payload.pstr result_json) t.qos]
              match t.jsonl_path with
              | Option.none => (⟨done, []⟩, none)
              | Option.some _ =>
                  if recOk then
                    (⟨done,
                      [(dumps true (PyVal.vdict
                          (jsonlDict (PyVal.vother "datetime" now) rd))).getD ""]⟩,
                     none)
                  else (⟨done, []⟩, some "OSError: record append failed")
            else (⟨[], []⟩, some "publish raised")
      else
        let events := publishPrim t.qos t.topic result
        if pubOk || !(hasPublish events) then (⟨events, []⟩, none)
        else (⟨events.takeWhile (fun e => !(isPublishEvent e)), []⟩, some "publish raised")

/-- `Task.run` with its try/except: the body's effects happen, and any
exception is caught and turned into the two log calls
`logger.warning("Task [%s] failed: ", self.topic_suffix)` and
`logger.exception(ex)` instead of propagating. -/
def TaskRun (t : Task) (evalRes : Except String PyVal) (pubOk recOk : Bool)
    (now : String) : RunOut × List String :=
  match runInner t evalRes pubOk recOk now with
  | (out, Option.none) => (out, [])
  | (out, Option.some ex) => (out, ["Task [" ++ t.topic_suffix ++ "] failed: ", ex])

/-- Python `int(x)` on a rational: truncation toward zero. -/
def intOfRat (q : ℚ) : ℤ :=
  if 0 ≤ q then ⌊q⌋ else ⌈q⌉

/-- Interval parsing of `Task.__init__` (lines 82-86): `timeparse`
(external, `tp` is its return value — `None` when the string is
unparseable, otherwise the duration in seconds, possibly fractional)
followed by `raise RuntimeError(...)` on `None` and `int(...)`
otherwise. No positivity check is performed. -/
def parseSchedulingInterval (tp : Option ℚ) : Except String Int :=
  match tp with
  | Option.none => Except.error "Couldnt parse scheduling interval"
  | Option.some s => Except.ok (intOfRat s)

/-- Spec-side: the index→value mapping with stringified positions
"0".."len(S)-1" as string keys, per the spec sentence on sequences. -/
def indexMappingFrom (i : Nat) : List PyVal → List (Key × PyVal)
  | [] => []
  | v :: rest => (Key.kstr (toString i), v) :: indexMappingFrom (i + 1) rest

/-- Spec-side: `indexMapping(S)` starting at "0". -/
def indexMapping (xs : List PyVal) : List (Key × PyVal) :=
  indexMappingFrom 0 xs

mutual

/-- Whether a value is one of None, a scalar (int/float/str), or a
string-keyed dict all of whose values satisfy the same condition —
the shape C1 quantifies over ("mapping M with string keys" of scalar
leaves). -/
def onlyStrScalarDict (v : PyVal) : Bool :=
  match v with
  | .vnone => true
  | .vint _ => true
  | .vfloat _ => true
  | .vstr _ => true
  | .vdict es => entriesOk es
  | _ => false
termination_by PyVal.size v
decreasing_by
  all_goals simp [PyVal.size]

/-- Companion of `onlyStrScalarDict` for dict entry lists: all keys
are strings and all values satisfy `onlyStrScalarDict`. -/
def entriesOk (es : List (Key × PyVal)) : Bool :=
  match es with
  | [] => true
  | (Key.kstr _, v) :: rest => onlyStrScalarDict v && entriesOk rest
  | (Key.kint _, _) :: _ => false
termination_by sizeEntries es
decreasing_by
  all_goals simp [sizeEntries]
  all_goals omega

end

mutual

/-- Spec-side: the terminal scalar leaves of a value, each with its
key-path (in insertion order). `None` values contribute no leaf. -/
def scalarLeaves (v : PyVal) : List (List String × Payload) :=
  match v with
  | .vint n => [([], Payload.pint n)]
  | .vfloat f => [([], Payload.pfloat f)]
  | .vstr s => [([], Payload.pstr s)]
  | .vdict es => leavesEntries es
  | _ => []
termination_by PyVal.size v
decreasing_by
  all_goals simp [PyVal.size]

/-- Companion of `scalarLeaves` for dict entry lists: each entry's
leaves with the entry's key prepended to the path. -/
def leavesEntries (es : List (Key × PyVal)) : List (List String × Payload) :=
  match es with
  | [] => []
  | (k, v) :: rest =>
      (scalarLeaves v).map (fun ps => (keyStr k :: ps.1, ps.2)) ++ leavesEntries rest
termination_by sizeEntries es
decreasing_by
  all_goals simp [sizeEntries]
  all_goals omega

end

/-- Spec-side: joining a base topic with a key-path by "/". -/
def joinPath (t : String) (p : List String) : String :=
  p.foldl (fun acc k => acc ++ "/" ++ k) t

/-- A concrete primitive-mode task used in witnesses. -/
def primTask : Task :=
  Task.mk false "host/mqttutil" "cpu" 0 Option.none

/-- A concrete JSON-mode task without a record path. -/
def jsonTask : Task :=
  Task.mk true "host/mqttutil" "cpu" 0 Option.none

/-- A concrete JSON-mode task with a record path. -/
def jsonRecTask : Task :=
  Task.mk true "host/mqttutil" "cpu" 0 (Option.some "out/cpu.jsonl")

/-- A concrete nested string-keyed mapping used by the C1 witness. -/
def sampleMapping : List (Key × PyVal) :=
  [(Key.kstr "a", PyVal.vint 1),
   (Key.kstr "b", PyVal.vdict
      [(Key.kstr "c", PyVal.vstr "x"), (Key.kstr "d", PyVal.vnone)]),
   (Key.kstr "e", PyVal.vnone),
   (Key.kstr "f", PyVal.vfloat "2.5")]

theorem joinPath_cons (t k : String) (p : List String) :
    joinPath t (k :: p) = joinPath (t ++ "/" ++ k) p := rfl

theorem one_le_size (v : PyVal) : 1 ≤ PyVal.size v := by
  cases v <;> simp [PyVal.size] <;> omega

theorem toString_int_ofNat (i : Nat) : toString ((i : Int)) = toString i := rfl

/-- Fuel-indexed characterization of the primitive-mode flattener on
None/scalar/string-keyed-dict values: it performs exactly the
publishes listed by `scalarLeaves`/`leavesEntries`, with topics joined
by "/" along the key-path. -/
theorem prim_leaves_aux (n : Nat) :
    (∀ v : PyVal, PyVal.size v ≤ n → onlyStrScalarDict v = true →
        ∀ (q : Int) (t : String),
        publishPrim q t v =
          (scalarLeaves v).map (fun ps => Event.publish (joinPath t ps.1) ps.2 q)) ∧
    (∀ es : List (Key × PyVal), sizeEntries es ≤ n → entriesOk es = true →
        ∀ (q : Int) (t : String),
        publishEntries q t es =
          (leavesEntries es).map (fun ps => Event.publish (joinPath t ps.1) ps.2 q)) := by
  induction n with
  | zero =>
      constructor
      · intro v hsz _ q t
        exact absurd hsz (by have := one_le_size v; omega)
      · intro es hsz h q t
        cases es with
        | nil => simp [publishEntries, leavesEntries]
        | cons e rest =>
            obtain ⟨k, v⟩ := e
            exfalso
            have := one_le_size v
            simp [sizeEntries] at hsz
  | succ n ih =>
      constructor
      · intro v hsz h q t
        cases v with
        | vnone => simp [publishPrim, scalarLeaves]
        | vint m => simp [publishPrim, scalarLeaves, joinPath]
        | vfloat f => simp [publishPrim, scalarLeaves, joinPath]
        | vstr s => simp [publishPrim, scalarLeaves, joinPath]
        | vbool b => simp [onlyStrScalarDict] at h
        | vother ty s => simp [onlyStrScalarDict] at h
        | vlist xs => simp [onlyStrScalarDict] at h
        | vtuple xs => simp [onlyStrScalarDict] at h
        | vnamedtuple fs => simp [onlyStrScalarDict] at h
        | vdict es =>
            have hsz' : sizeEntries es ≤ n := by
              simp [PyVal.size] at hsz; omega
            have h' : entriesOk es = true := by
              simpa [onlyStrScalarDict] using h
            have hmain := ih.2 es hsz' h' q t
            simpa [publishPrim, scalarLeaves] using hmain
      · intro es hsz h q t
        cases es with
        | nil => simp [publishEntries, leavesEntries]
        | cons e rest =>
            obtain ⟨k, v⟩ := e
            cases k with
            | kint m => simp [entriesOk] at h
            | kstr s =>
                simp only [entriesOk, Bool.and_eq_true] at h
                have hv : PyVal.size v ≤ n := by
                  simp [sizeEntries] at hsz; omega
                have hr : sizeEntries rest ≤ n := by
                  have := one_le_size v
                  simp [sizeEntries] at hsz; omega
                rw [show publishEntries q t ((Key.kstr s, v) :: rest) =
                      publishPrim q (t ++ "/" ++ s) v ++ publishEntries q t rest from by
                      simp [publishEntries, keyStr]]
                rw [show leavesEntries ((Key.kstr s, v) :: rest) =
                      (scalarLeaves v).map (fun ps => (s :: ps.1, ps.2)) ++
                        leavesEntries rest from by
                      simp [leavesEntries, keyStr]]
                rw [List.map_append, List.map_map]
                rw [ih.1 v hv h.1 q (t ++ "/" ++ s), ih.2 rest hr h.2 q t]
                rfl

/-- Claim C1: in primitive (non-JSON) mode, flattening a mapping with
string keys starting at base topic `t` performs exactly one publish
per terminal scalar leaf, the topic of each publish being `t` joined
with the leaf's key-path by "/" in insertion order, and performs zero
publishes for any key whose value is None anywhere in its subtree
(`scalarLeaves`/`leavesEntries` enumerate exactly the terminal scalar
leaves, skipping None values at every depth). -/
theorem prim_mapping_publishes_scalar_leaves (q : Int) (t : String)
    (es : List (Key × PyVal)) (h : entriesOk es = true) :
    publishPrim q t (PyVal.vdict es) =
      (leavesEntries es).map (fun ps => Event.publish (joinPath t ps.1) ps.2 q) := by
  have h' : onlyStrScalarDict (PyVal.vdict es) = true := by
    simpa [onlyStrScalarDict] using h
  have hmain :=
    (prim_leaves_aux (PyVal.size (PyVal.vdict es))).1 (PyVal.vdict es) le_rfl h' q t
  simpa [publishPrim, scalarLeaves] using hmain

/-- Witness for C1 on a concrete nested mapping with None subtrees. -/
theorem prim_mapping_publishes_scalar_leaves_witness :
    entriesOk sampleMapping = true ∧
    publishPrim 0 "base" (PyVal.vdict sampleMapping) =
      (leavesEntries sampleMapping).map
        (fun ps => Event.publish (joinPath "base" ps.1) ps.2 0) :=
  ⟨by simp [sampleMapping, entriesOk, onlyStrScalarDict],
   prim_mapping_publishes_scalar_leaves 0 "base" sampleMapping
     (by simp [sampleMapping, entriesOk, onlyStrScalarDict])⟩

theorem publishEntries_index_eq_enum (q : Int) (t : String) (xs : List PyVal) :
    ∀ i, publishEntries q t (indexMappingFrom i xs) =
      publishEntries q t (enumEntriesFrom i xs) := by
  induction xs with
  | nil => intro i; simp [indexMappingFrom, enumEntriesFrom]
  | cons v rest ih =>
      intro i
      simp [indexMappingFrom, enumEntriesFrom, publishEntries, keyStr,
        toString_int_ofNat, ih]

/-- Claim C5: primitive-mode flattening of a sequence produces exactly
the same publishes, in the same order, as flattening of the
index-to-value mapping with stringified positions "0".."len(S)-1";
and a tuple without named fields is flattened the same way as the
corresponding sequence. -/
theorem seq_flatten_eq_index_mapping (q : Int) (t : String) (xs : List PyVal) :
    publishPrim q t (PyVal.vlist xs) =
      publishPrim q t (PyVal.vdict (indexMapping xs)) ∧
    publishPrim q t (PyVal.vtuple xs) = publishPrim q t (PyVal.vlist xs) := by
  constructor
  · rw [show publishPrim q t (PyVal.vlist xs) =
        publishEntries q t (enumEntriesFrom 0 xs) from by simp [publishPrim]]
    rw [show publishPrim q t (PyVal.vdict (indexMapping xs)) =
        publishEntries q t (indexMappingFrom 0 xs) from by
        simp [publishPrim, indexMapping]]
    exact (publishEntries_index_eq_enum q t xs 0).symm
  · simp [publishPrim]

/-- Claim C8: the task's topic equals topic_prefix + "/" +
topic_suffix, except that an empty topic_prefix yields the suffix
alone, and a topic_prefix already ending in "/" gets no extra
separator; in particular topic("a/","b") = "a/b", topic("a","b") =
"a/b", topic("","b") = "b". -/
theorem topic_join_spec :
    (∀ t : Task, t.topic = topic_of t.topic_pre t.topic_suffix) ∧
    (∀ s, topic_of "" s = s) ∧
    (∀ p s, p ≠ "" → endsWithSlash p = true → topic_of p s = p ++ s) ∧
    (∀ p s, p ≠ "" → endsWithSlash p = false → topic_of p s = p ++ "/" ++ s) ∧
    topic_of "a/" "b" = "a/b" ∧ topic_of "a" "b" = "a/b" ∧ topic_of "" "b" = "b" := by
  refine ⟨fun t => rfl, fun s => by simp [topic_of], ?_, ?_,
    by decide, by decide, by decide⟩
  · intro p s h1 h2; simp [topic_of, h1, h2]
  · intro p s h1 h2; simp [topic_of, h1, h2]

/-- Witness for C8 at a concrete non-empty topic_prefix without a
trailing separator. -/
theorem topic_join_spec_witness : topic_of "x" "y" = "x/y" :=
  topic_join_spec.2.2.2.1 "x" "y" (by decide) (by decide)

/-- Claim C9: the scalar branch tests the exact runtime type against
int/float/str, so a boolean (Python `bool`, a strict subclass of
`int`) is not published as a scalar and falls through to the
unsupported-type branch: zero publishes, one warning. -/
theorem bool_not_published_warns (q : Int) (t : String) (b : Bool) :
    publishPrim q t (PyVal.vbool b) = [Event.warn "bool" t] := by
  simp [publishPrim]

/-- Claim C6: in primitive mode, a result of an unsupported type
produces zero publishes and exactly one warning naming the type and
the topic, and no exception escapes `Task.run` because of it (the log
list is empty: nothing was caught). -/
theorem unsupported_type_zero_publish_one_warning (t : Task) (h : t.json = false)
    (ty s now : String) (pubOk recOk : Bool) :
    TaskRun t (Except.ok (PyVal.vother ty s)) pubOk recOk now =
      (⟨[Event.warn ty t.topic], []⟩, []) := by
  simp [TaskRun, runInner, h, publishPrim, hasPublish, isPublishEvent]

/-- Witness for C6 on a concrete primitive-mode task and a raw binary
blob. -/
theorem unsupported_type_zero_publish_one_warning_witness :
    primTask.json = false ∧
    TaskRun primTask (Except.ok (PyVal.vother "bytes" "bx")) true true "ts" =
      (⟨[Event.warn "bytes" primTask.topic], []⟩, []) :=
  ⟨rfl, unsupported_type_zero_publish_one_warning primTask rfl "bytes" "bx" "ts"
    true true⟩

/-- Claim C3: every exception raised during evaluation, flattening,
publishing, or record writing is caught inside `run`: the performed
side effects are kept, a run with no exception logs nothing, and a run
whose body raised logs the failure with the task's topic identity
(its `topic_suffix`) instead of propagating. -/
theorem run_catches_all_errors (t : Task) (evalRes : Except String PyVal)
    (pubOk recOk : Bool) (now : String) :
    (TaskRun t evalRes pubOk recOk now).1 = (runInner t evalRes pubOk recOk now).1 ∧
    ((runInner t evalRes pubOk recOk now).2 = Option.none →
      (TaskRun t evalRes pubOk recOk now).2 = []) ∧
    (∀ ex, (runInner t evalRes pubOk recOk now).2 = Option.some ex →
      (TaskRun t evalRes pubOk recOk now).2 =
        ["Task [" ++ t.topic_suffix ++ "] failed: ", ex]) := by
  rcases h : runInner t evalRes pubOk recOk now with ⟨out, err⟩
  cases err <;> simp [TaskRun, h]

/-- Witness for C3 at a failing expression evaluation. -/
theorem run_catches_all_errors_witness :
    (runInner primTask (Except.error "boom") true true "ts").2 =
      Option.some "boom" ∧
    (TaskRun primTask (Except.error "boom") true true "ts").2 =
      ["Task [" ++ primTask.topic_suffix ++ "] failed: ", "boom"] :=
  ⟨rfl,
   (run_catches_all_errors primTask (Except.error "boom") true true "ts").2.2
     "boom" rfl⟩

/-- Claim C4 (amended): interval parsing fails with a creation error
exactly when `timeparse` cannot parse the specification at all
(returns None); on success `scheduling_interval_s` is the integer
truncation of the parsed duration — which is NOT checked for
positivity. -/
theorem interval_parse_behavior :
    parseSchedulingInterval Option.none =
      Except.error "Couldnt parse scheduling interval" ∧
    (∀ q : ℚ, parseSchedulingInterval (Option.some q) = Except.ok (intOfRat q)) :=
  ⟨rfl, fun _ => rfl⟩

/-- Counterexample for C4 as stated: the interval "0s" parses
(`timeparse` returns 0, not None), so creation succeeds with
`scheduling_interval_s = 0`, which is not positive. -/
theorem interval_zero_accepted_counterexample :
    parseSchedulingInterval (Option.some 0) = Except.ok 0 ∧ ¬ (0 < (0 : Int)) := by
  constructor
  · simp [parseSchedulingInterval, intOfRat]
  · decide

theorem dumpsEntries_enum_eq_index (d : Bool) (xs : List PyVal) :
    ∀ i, dumpsEntries d (enumEntriesFrom i xs) =
      dumpsEntries d (indexMappingFrom i xs) := by
  induction xs with
  | nil => intro i; rfl
  | cons v rest ih =>
      intro i
      simp [enumEntriesFrom, indexMappingFrom, dumpsEntries, jsonKeyStr,
        toString_int_ofNat, ih]

/-- Claim C2 (amended): in JSON mode every result is normalized to a
mapping (a dict as-is, a namedtuple via `_asdict`, a list/tuple via
`dict(enumerate(...))` — whose int keys serialize as the string keys
"0","1",... — and any other value wrapped as the singleton mapping
with key 0) and, provided the mapping is JSON-serializable, it is
serialized once and published exactly once under the Task's own topic
with no suffix appended. -/
theorem json_mode_single_publish (t : Task) (h : t.json = true) (v : PyVal)
    (s : String) (hs : dumps false (PyVal.vdict (resultDict v)) = Option.some s)
    (recOk : Bool) (now : String) :
    (runInner t (Except.ok v) true recOk now).1.events =
      [Event.publish t.topic (Payload.pstr s) t.qos] ∧
    (∀ es, resultDict (PyVal.vdict es) = es) ∧
    (∀ fs, resultDict (PyVal.vnamedtuple fs) = fieldEntries fs) ∧
    (∀ xs, resultDict (PyVal.vlist xs) = enumEntriesFrom 0 xs) ∧
    (∀ xs, resultDict (PyVal.vtuple xs) = enumEntriesFrom 0 xs) ∧
    (∀ n, resultDict (PyVal.vint n) = [(Key.kint 0, PyVal.vint n)]) ∧
    (∀ xs d, dumps d (PyVal.vdict (enumEntriesFrom 0 xs)) =
        dumps d (PyVal.vdict (indexMapping xs))) := by
  refine ⟨?_, fun es => rfl, fun fs => rfl, fun xs => rfl, fun xs => rfl,
    fun n => rfl, ?_⟩
  · simp only [runInner, h, if_true]
    rw [hs]
    cases t.jsonl_path <;> cases recOk <;> simp
  · intro xs d
    rw [show indexMapping xs = indexMappingFrom 0 xs from rfl]
    simp [dumps, dumpsEntries_enum_eq_index]

/-- Witness for C2 on a concrete serializable dict result. -/
theorem json_mode_single_publish_witness :
    jsonTask.json = true ∧
    dumps false (PyVal.vdict (resultDict
        (PyVal.vdict [(Key.kstr "a", PyVal.vint 1)]))) =
      Option.some "\x7b\"a\": 1\x7d" ∧
    (runInner jsonTask (Except.ok (PyVal.vdict [(Key.kstr "a", PyVal.vint 1)]))
        true true "ts").1.events =
      [Event.publish jsonTask.topic (Payload.pstr "\x7b\"a\": 1\x7d") jsonTask.qos] :=
  ⟨rfl, rfl,
   (json_mode_single_publish jsonTask rfl
      (PyVal.vdict [(Key.kstr "a", PyVal.vint 1)]) "\x7b\"a\": 1\x7d" rfl
      true "ts").1⟩

/-- Counterexample for C2 as stated: a result of an unsupported type
(e.g. a bytes object) is wrapped as `{0: result}`, whose serialization
raises `TypeError` — caught by `run` — so nothing at all is published,
contradicting "published exactly once for every result value". -/
theorem json_unserializable_counterexample :
    (runInner jsonTask (Except.ok (PyVal.vother "bytes" "bx")) true true
        "ts").1.events = [] ∧
    (runInner jsonTask (Except.ok (PyVal.vother "bytes" "bx")) true true
        "ts").2 ≠ Option.none :=
  ⟨by decide, by decide⟩

/-- Claim C7 (amended): a failure of the record-file append does not
suppress that run's broker publish — the publish happens first and is
kept while the append's exception is caught by `run`. (The converse
direction of the original claim is false: see the counterexample.) -/
theorem record_failure_does_not_suppress_publish (t : Task) (h : t.json = true)
    (p : String) (hp : t.jsonl_path = Option.some p) (v : PyVal) (s : String)
    (hs : dumps false (PyVal.vdict (resultDict v)) = Option.some s)
    (now : String) :
    (runInner t (Except.ok v) true false now).1.events =
      [Event.publish t.topic (Payload.pstr s) t.qos] ∧
    (runInner t (Except.ok v) true false now).2 ≠ Option.none := by
  simp only [runInner, h, if_true]
  rw [hs, hp]
  simp

/-- Witness for C7 at a concrete task with a record path whose append
fails. -/
theorem record_failure_does_not_suppress_publish_witness :
    jsonRecTask.json = true ∧
    jsonRecTask.jsonl_path = Option.some "out/cpu.jsonl" ∧
    (runInner jsonRecTask (Except.ok (PyVal.vint 1)) true false "ts").1.events =
      [Event.publish jsonRecTask.topic (Payload.pstr "\x7b\"0\": 1\x7d")
        jsonRecTask.qos] :=
  ⟨rfl, rfl,
   (record_failure_does_not_suppress_publish jsonRecTask rfl "out/cpu.jsonl" rfl
      (PyVal.vint 1) "\x7b\"0\": 1\x7d" rfl "ts").1⟩

/-- Counterexample for C7 as stated: when the broker publish raises,
the record line is NOT appended (the `with open(...)` block is only
reached after the publish), although the same run with a working
publish does append it — so a publish failure does suppress the
record-file append. -/
theorem publish_failure_suppresses_record_counterexample :
    jsonRecTask.jsonl_path ≠ Option.none ∧
    (runInner jsonRecTask (Except.ok (PyVal.vint 1)) false true "ts").1.records =
      [] ∧
    (runInner jsonRecTask (Except.ok (PyVal.vint 1)) true true "ts").1.records =
      ["\x7b\"_time\": \"ts\", \"0\": 1\x7d"] :=
  ⟨by decide, by decide, by decide⟩

theorem dictLookup_dictReplace_ne (k0 : Key) (v0 : PyVal) (k : Key) (hk : k ≠ k0) :
    ∀ acc : List (Key × PyVal),
      dictLookup k (dictReplace k0 v0 acc) = dictLookup k acc := by
  intro acc
  induction acc with
  | nil => rfl
  | cons e rest ih =>
      obtain ⟨k1, v1⟩ := e
      by_cases h1 : k1 = k0
      · subst h1
        simp [dictReplace, dictLookup, ih, hk]
      · simp [dictReplace, dictLookup, h1, ih]

theorem dictLookup_dictReplace_eq (k0 : Key) (v0 : PyVal) :
    ∀ acc : List (Key × PyVal), dictHasKey k0 acc = true →
      dictLookup k0 (dictReplace k0 v0 acc) = Option.some v0 := by
  intro acc
  induction acc with
  | nil => intro h; simp [dictHasKey] at h
  | cons e rest ih =>
      obtain ⟨k1, v1⟩ := e
      intro h
      by_cases h1 : k1 = k0
      · subst h1
        simp [dictReplace, dictLookup]
      · simp only [dictHasKey, h1, if_false] at h
        simp [dictReplace, dictLookup, h1, Ne.symm h1, ih h]

theorem dictLookup_append_single (k k0 : Key) (v0 : PyVal) :
    ∀ acc : List (Key × PyVal),
      dictLookup k (acc ++ [(k0, v0)]) =
        match dictLookup k acc with
        | Option.some v => Option.some v
        | Option.none => if k = k0 then Option.some v0 else Option.none := by
  intro acc
  induction acc with
  | nil => simp [dictLookup]
  | cons e rest ih =>
      obtain ⟨k1, v1⟩ := e
      by_cases h1 : k = k1
      · simp [dictLookup, h1]
      · simp [dictLookup, h1, ih]

theorem dictLookup_eq_none_of_hasKey_false (k0 : Key) :
    ∀ acc : List (Key × PyVal), dictHasKey k0 acc = false →
      dictLookup k0 acc = Option.none := by
  intro acc
  induction acc with
  | nil => intro _; rfl
  | cons e rest ih =>
      obtain ⟨k1, v1⟩ := e
      intro h
      by_cases h1 : k1 = k0
      · simp [dictHasKey, h1] at h
      · simp only [dictHasKey, h1, if_false] at h
        simp [dictLookup, Ne.symm h1, ih h]

theorem dictHasKey_false_of_not_mem (k : Key) :
    ∀ es : List (Key × PyVal), k ∉ es.map Prod.fst → dictHasKey k es = false := by
  intro es
  induction es with
  | nil => intro _; rfl
  | cons e rest ih =>
      obtain ⟨k1, v1⟩ := e
      intro h
      simp only [List.map_cons, List.mem_cons, not_or] at h
      have h1 : k1 ≠ k := fun hc => h.1 hc.symm
      simp [dictHasKey, h1, ih h.2]

theorem dictLookup_dictInsert (acc : List (Key × PyVal)) (k k0 : Key) (v0 : PyVal) :
    dictLookup k (dictInsert acc k0 v0) =
      if k = k0 then Option.some v0 else dictLookup k acc := by
  by_cases hany : dictHasKey k0 acc = true
  · rw [show dictInsert acc k0 v0 = dictReplace k0 v0 acc from by
        simp [dictInsert, hany]]
    by_cases hk : k = k0
    · subst hk; simp [dictLookup_dictReplace_eq k v0 acc hany]
    · simp [hk, dictLookup_dictReplace_ne k0 v0 k hk acc]
  · rw [show dictInsert acc k0 v0 = acc ++ [(k0, v0)] from by
        simp [dictInsert, hany]]
    rw [dictLookup_append_single]
    by_cases hk : k = k0
    · subst hk
      rw [dictLookup_eq_none_of_hasKey_false k acc (by simpa using hany)]
    · cases hacc : dictLookup k acc <;> simp [hk]

theorem dictLookup_dictUpdate (k : Key) (rd : List (Key × PyVal)) :
    ∀ acc, (rd.map Prod.fst).Nodup →
      dictLookup k (dictUpdate acc rd) =
        match dictLookup k rd with
        | Option.some v => Option.some v
        | Option.none => dictLookup k acc := by
  induction rd with
  | nil => intro acc _; simp [dictUpdate, dictLookup]
  | cons e rest ih =>
      obtain ⟨k0, v0⟩ := e
      intro acc hnd
      simp only [List.map_cons, List.nodup_cons] at hnd
      rw [show dictUpdate acc ((k0, v0) :: rest) =
          dictUpdate (dictInsert acc k0 v0) rest from rfl]
      rw [ih (dictInsert acc k0 v0) hnd.2]
      by_cases hk : k = k0
      · subst hk
        have hnone : dictLookup k rest = Option.none :=
          dictLookup_eq_none_of_hasKey_false k rest
            (dictHasKey_false_of_not_mem k rest hnd.1)
        simp [dictLookup, hnone, dictLookup_dictInsert]
      · cases hrest : dictLookup k rest <;>
          simp [dictLookup, hk, hrest, dictLookup_dictInsert]

/-- Claim C10: in JSON mode with a record path, the record-line
mapping is `{"_time": timestamp, **result_dict}` — the merge of the
injected timestamp with the normalized result mapping, the result
mapping taking precedence: a "_time" key present in the result mapping
replaces the injected timestamp; otherwise the injected timestamp is
kept. -/
theorem jsonl_time_key_override (timeVal : PyVal) (rd : List (Key × PyVal))
    (hnd : (rd.map Prod.fst).Nodup) :
    dictLookup (Key.kstr "_time") (jsonlDict timeVal rd) =
      match dictLookup (Key.kstr "_time") rd with
      | Option.some v => Option.some v
      | Option.none => Option.some timeVal := by
  rw [show jsonlDict timeVal rd =
      dictUpdate [(Key.kstr "_time", timeVal)] rd from rfl]
  rw [dictLookup_dictUpdate (Key.kstr "_time") rd _ hnd]
  cases h : dictLookup (Key.kstr "_time") rd <;> simp [dictLookup]

/-- Witness for C10 at a result mapping that itself carries "_time". -/
theorem jsonl_time_key_override_witness :
    (([(Key.kstr "_time", PyVal.vstr "override")] :
        List (Key × PyVal)).map Prod.fst).Nodup ∧
    dictLookup (Key.kstr "_time")
        (jsonlDict (PyVal.vother "datetime" "ts")
          [(Key.kstr "_time", PyVal.vstr "override")]) =
      Option.some (PyVal.vstr "override") := by
  refine ⟨by simp, ?_⟩
  rw [jsonl_time_key_override (PyVal.vother "datetime" "ts")
    [(Key.kstr "_time", PyVal.vstr "override")] (by simp)]
  rfl

end Mqttutil
